import Mathlib

/-!
Verification of the survivorship-free panel construction and turnover-aware
backtest engine of the Momentum-Research repository.

Panels are shallowly embedded over exact rationals: a weight or indicator
panel is a total function `ℕ → Fin n → ℚ` (date index × ticker index), a
return or rank panel is `ℕ → Fin n → Option ℚ` where `none` models a missing
(NaN) cell, matching the pandas semantics of the source (comparisons with NaN
are false, `fillna(0.0)` maps missing to `0`, `skipna` sums drop missing
products).
-/

/-- Embeds `normalize_weights` (src/data/turnover.py lines 5-7): divide a
weight row by its total absolute weight; a zero row-sum is replaced by NaN and
the resulting NaN row is filled with `0`, i.e. a zero row stays zero. -/
def normalize_weights {n : ℕ} (W : Fin n → ℚ) : Fin n → ℚ :=
  let s := ∑ j, |W j|
  if s = 0 then fun _ => 0 else fun j => W j / s

/-- Embeds `equal_weight_long_short` (src/data/turnover.py lines 10-16):
turn long/short indicator rows into `+1/N_long` and `-1/N_short` weights
(a side with zero names contributes zero weight), then renormalize the
combined row with `normalize_weights`. -/
def equal_weight_long_short {n : ℕ} (longs shorts : Fin n → ℚ) : Fin n → ℚ :=
  let L : Fin n → ℚ := fun j => if 0 < longs j then 1 else 0
  let S : Fin n → ℚ := fun j => if 0 < shorts j then 1 else 0
  let lsum := ∑ j, L j
  let ssum := ∑ j, S j
  let lw : Fin n → ℚ := if lsum = 0 then fun _ => 0 else fun j => L j / lsum
  let sw : Fin n → ℚ := if ssum = 0 then fun _ => 0 else fun j => -(S j / ssum)
  normalize_weights (fun j => lw j + sw j)

/-- Embeds `drift_weights` (src/data/turnover.py lines 19-32): compound the
previous weight row by the previous realized returns (missing weights and
returns are filled with `0` after alignment), then divide by the total
absolute post-drift weight unless that total is zero, in which case the
unnormalized post-drift row is returned. -/
def drift_weights {n : ℕ} (wPrev : Fin n → ℚ) (retsPrev : Fin n → Option ℚ) :
    Fin n → ℚ :=
  let wPost : Fin n → ℚ := fun j => wPrev j * (1 + (retsPrev j).getD 0)
  let denom := ∑ j, |wPost j|
  if denom = 0 then wPost else fun j => wPost j / denom

/-- Embeds `turnover_from_weights` (src/data/turnover.py lines 34-48): the
first date gets turnover `0`; every later date `t` gets half the absolute
difference between the target row at `t` and the previous row drifted by the
previous returns. -/
def turnover_from_weights {n : ℕ} (W : ℕ → Fin n → ℚ)
    (rets : ℕ → Fin n → Option ℚ) : ℕ → ℚ
  | 0 => 0
  | k + 1 => (1 / 2) * ∑ j, |W (k + 1) j - drift_weights (W k) (rets k) j|

/-- Embeds `apply_turnover_costs` (src/data/turnover.py lines 51-57):
net return = gross return minus turnover times `cost_bps / 10000`. -/
def apply_turnover_costs (gross turnover : ℕ → ℚ) (cost_bps : ℚ) : ℕ → ℚ :=
  fun t => gross t - turnover t * (cost_bps / 10000)

/-- Embeds `build_signals` (src/analysis_survivorship_free.py lines 45-48),
long side: `longs = (ranks >= long_q).astype(int)`; a missing rank compares
false against the threshold, hence yields indicator `0`. -/
def build_signals_longs {n : ℕ} (ranks : ℕ → Fin n → Option ℚ)
    (long_q : ℚ) : ℕ → Fin n → ℤ :=
  fun t j =>
    match ranks t j with
    | some r => if long_q ≤ r then 1 else 0
    | none => 0

/-- Embeds `build_signals` (src/analysis_survivorship_free.py lines 45-48),
short side: `shorts = (ranks <= short_q).astype(int)`; a missing rank compares
false against the threshold, hence yields indicator `0`. -/
def build_signals_shorts {n : ℕ} (ranks : ℕ → Fin n → Option ℚ)
    (short_q : ℚ) : ℕ → Fin n → ℤ :=
  fun t j =>
    match ranks t j with
    | some r => if r ≤ short_q then 1 else 0
    | none => 0

/-- Embeds the minimum-names gate of `main`
(src/analysis_survivorship_free.py lines 98-101):
`valid = (longs.sum(axis=1) >= min_names) & (shorts.sum(axis=1) >= min_names)`
and both indicator panels are zeroed (`.where(valid, 0)`) on invalid dates.
Returns the pair (gated longs, gated shorts). -/
def gate_signals {n : ℕ} (longs shorts : ℕ → Fin n → ℚ) (min_names : ℚ) :
    (ℕ → Fin n → ℚ) × (ℕ → Fin n → ℚ) :=
  (fun t j =>
    if min_names ≤ (∑ i, longs t i) ∧ min_names ≤ (∑ i, shorts t i) then
      longs t j else 0,
   fun t j =>
    if min_names ≤ (∑ i, longs t i) ∧ min_names ≤ (∑ i, shorts t i) then
      shorts t j else 0)

/-- Embeds `gross = (W * rets).sum(axis=1)` of `main`
(src/analysis_survivorship_free.py lines 103-105): a product against a missing
return is NaN and is skipped by the row sum (`skipna`), so it contributes `0`. -/
def strategy_gross {n : ℕ} (W : ℕ → Fin n → ℚ)
    (rets : ℕ → Fin n → Option ℚ) : ℕ → ℚ :=
  fun t => ∑ j, (match rets t j with
    | some r => W t j * r
    | none => 0)

/-- One long-format membership record, a row of
`sp500_membership_monthly.csv` as consumed by `prices_masked_by_membership`:
columns `date`, `ticker`, `in_index`. -/
structure MemRow where
  date : Int
  ticker : String
  in_index : ℚ

/-- The pivoted membership mask built inside `prices_masked_by_membership`
(src/data/panel_from_membership.py lines 23-29):
`pivot_table(index="date", columns="ticker", values="in_index", aggfunc="max")`
then `.reindex(prices.index).fillna(0.0)` — the cell at `(d, t)` is the
maximum `in_index` over records with that date and ticker, and `0` when no
record matches. -/
def maskValue (membership : List MemRow) (d : Int) (t : String) : ℚ :=
  (((membership.filter (fun r => r.date == d && r.ticker == t)).map
      (fun r => r.in_index)).max?).getD 0

/-- The set of tickers appearing in the membership records (the columns of
the pivoted mask). -/
def memTickers (membership : List MemRow) : Finset String :=
  (membership.map (fun r => r.ticker)).toFinset

/-- A price panel: date index, ticker columns, and cells that are a price or
missing (`none` models NaN). -/
@[ext] structure PricePanel where
  dates : List Int
  tickers : Finset String
  cell : Int → String → Option ℚ

/-- Embeds `prices_masked_by_membership` (src/data/panel_from_membership.py
lines 20-34). After the pivoted mask is built, line 30 evaluates
`set(prices.columns).intersections(set(mask.columns))`; Python sets define
`intersection` but not `intersections`, so this attribute access raises
`AttributeError` on every call, before any masked panel is produced. -/
def prices_masked_by_membership (prices : PricePanel)
    (membership : List MemRow) : Except String PricePanel :=
  let _mask : Int → String → ℚ := fun d t => maskValue membership d t
  Except.error "AttributeError: set object has no attribute intersections"

/-- Modelled from the spec: the masking contract of spec section 4.2 that
`prices_masked_by_membership` implements up to the `intersections` typo on
line 30 (read as `intersection`): the columns are the intersection of the
price panel's tickers with the membership tickers, the dates are the price
panel's dates, and a cell holds the raw price exactly when the mask value
exceeds `0.5` (`P.where(M > 0.5, np.nan)`), otherwise it is missing. -/
def prices_masked_spec (prices : PricePanel) (membership : List MemRow) :
    PricePanel where
  dates := prices.dates
  tickers := prices.tickers ∩ memTickers membership
  cell := fun d t =>
    if 1 / 2 < maskValue membership d t then prices.cell d t else none

/-- An index reconstitution event as parsed by `build_sp500_history.py`:
a date together with the lists of added and removed tickers. Dates are
modelled as integer day numbers. -/
structure ChangeEvent where
  date : Int
  added : List String
  removed : List String
deriving DecidableEq

/-- Embeds the forward application of one event in
`build_membership_timeline` (src/data/build_sp500_history.py lines 262-268):
remove every ticker in `removed` that is present, then add every ticker in
`added`. -/
def applyEvent (S : Finset String) (e : ChangeEvent) : Finset String :=
  e.added.foldl (fun s a => insert a s) (e.removed.foldl (fun s r => s.erase r) S)

/-- Embeds the backward undo of one event in `build_membership_timeline`
(src/data/build_sp500_history.py lines 243-250): remove every ticker the
event added, then re-add every ticker it removed. -/
def undoEvent (S : Finset String) (e : ChangeEvent) : Finset String :=
  e.removed.foldl (fun s r => insert r s) (e.added.foldl (fun s a => s.erase a) S)

/-- Embeds the backward pass of `build_membership_timeline` (lines 240-250):
the events with `date > start`, processed in reverse chronological order, are
undone starting from the current membership set. -/
def rollBack (current : Finset String) (events : List ChangeEvent)
    (start : Int) : Finset String :=
  ((events.filter (fun e => decide (start < e.date))).reverse).foldl
    undoEvent current

/-- Embeds the forward pass of `build_membership_timeline` (lines 252-270) at
its final day: the membership reported for the last day of the range is the
start-of-range set with every event dated in `[start, end]` applied in
chronological order. -/
def rollForwardFinal (memb : Finset String) (events : List ChangeEvent)
    (start endDate : Int) : Finset String :=
  (events.filter (fun e => decide (start ≤ e.date) && decide (e.date ≤ endDate))).foldl
    applyEvent memb

/-- The backward-then-forward reconstruction of `build_membership_timeline`,
reported at the final day of the range. -/
def buildMembershipFinal (current : Finset String) (events : List ChangeEvent)
    (start endDate : Int) : Finset String :=
  rollForwardFinal (rollBack current events start) events start endDate

/-- One row of a scraped changes table after column standardization in
`_extract_changes_table`: the parsed `Date` (`none` models NaT) and the
optional raw `Added`, `Removed` and `Reason` text cells (`none` models a
missing cell). -/
structure ChangesRow where
  date : Option Int
  added : Option String
  removed : Option String
  reason : Option String
deriving DecidableEq

/-- One scraped HTML table as seen by the candidate filter of
`_extract_changes_table` (lines 101-122): whether its column names contain a
date-like column and a change-like column, and its rows. -/
structure ChangesTable where
  hasDateCol : Bool
  hasChangeCol : Bool
  rows : List ChangesRow
deriving DecidableEq

/-- The Yahoo-Finance ticker fix map of `build_sp500_history.py` lines
17-20. -/
def YF_TICKER_FIX : List (String × String) :=
  [("BRK.B", "BRK-B"), ("BF.B", "BF-B")]

/-- The final-segment dot replacement of `normalize_ticker` line 42, the
regex sub of a dot followed only by alphanumerics to the end: at most the dot
immediately preceding the maximal trailing alphanumeric run is replaced, and
only when that run is nonempty. -/
def replaceFinalDot (s : String) : String :=
  let rcs := s.toList.reverse
  let run := rcs.takeWhile (fun c => c.isAlphanum)
  let rest := rcs.dropWhile (fun c => c.isAlphanum)
  if run.isEmpty then s
  else
    match rest with
    | [] => s
    | c :: rest2 =>
      if c = '.' then ((run ++ ('-' :: rest2)).reverse).asString else s

/-- Embeds `normalize_ticker` (src/data/build_sp500_history.py lines 35-43):
strip, uppercase, drop inner spaces, apply the Yahoo-Finance fix map, else
replace the final-segment dot by a dash. The NaN input branch (returning
None) does not arise here because cells are materialized as `Option` before
parsing. -/
def normalize_ticker (t : String) : String :=
  let t1 := (t.trim.toUpper.replace " " "")
  match YF_TICKER_FIX.lookup t1 with
  | some fixed => fixed
  | none => replaceFinalDot t1

/-- Embeds the `re.split` on comma, slash, or the word "and" of
`_parse_added_removed` line 189: the separator " and " is first rewritten to
a comma, then the string is split on commas and slashes. -/
def splitParts (s : String) : List String :=
  (s.replace " and " ",").split (fun c => c = ',' || c = '/')

/-- Characters accepted inside a parenthesized ticker by the regex of
`_parse_added_removed` line 195. -/
def isTickerChar (c : Char) : Bool :=
  c.isAlphanum || c = '.' || c = '-'

/-- Embeds the parenthesized-ticker search of `_parse_added_removed` line
195: a parenthesized run of ticker characters, when present at the first
opening parenthesis, replaces the whole token. -/
def extractParen (p : String) : String :=
  let afterParen := (p.toList.dropWhile (fun c => c ≠ '(')).drop 1
  let inner := afterParen.takeWhile isTickerChar
  if inner.isEmpty then p
  else if (afterParen.drop inner.length).head? = some ')' then inner.asString
  else p

/-- Embeds the Added/Removed bucket parsing of `_parse_added_removed` lines
186-199: a missing cell yields no tickers; otherwise split into parts, keep
nonempty trimmed parts, extract a parenthesized ticker when present, and
normalize. -/
def parseBucket (cell : Option String) : List String :=
  match cell with
  | none => []
  | some s =>
    (((splitParts s).map String.trim).filter (fun p => !p.isEmpty)).map
      (fun p => normalize_ticker (extractParen p))

/-- Embeds the "X replaces Y" fallback regex of `_parse_added_removed` lines
200-207 at word granularity: the first word equal to "replace", "replaces" or
"replacing" (case-insensitively) flanked by two words yields the
(added, removed) pair. -/
def reasonPair : List String → Option (String × String)
  | a :: w :: b :: rest =>
    if w.toLower = "replace" || w.toLower = "replaces" || w.toLower = "replacing"
    then some (a, b)
    else reasonPair (w :: b :: rest)
  | _ => none

/-- A parsed change event before the date filters of
`build_membership_timeline`: the optional parsed date with the added and
removed ticker lists. -/
structure ParsedEvent where
  date : Option Int
  added : List String
  removed : List String
deriving DecidableEq

/-- Embeds `_parse_added_removed` (src/data/build_sp500_history.py lines
184-213): parse both buckets; when both are empty, fall back to the
"X replaces Y" pattern in the Reason cell; finally drop empty ticker
strings. -/
def _parse_added_removed (r : ChangesRow) : ParsedEvent :=
  let added := parseBucket r.added
  let removed := parseBucket r.removed
  let pair :=
    if added.isEmpty && removed.isEmpty then
      match r.reason with
      | some txt =>
        match reasonPair (((txt.split (fun c => c = ' ')).map
            String.trim).filter (fun w => !w.isEmpty)) with
        | some (a, b) => ([normalize_ticker a], [normalize_ticker b])
        | none => (added, removed)
      | none => (added, removed)
    else (added, removed)
  { date := r.date
    added := pair.1.filter (fun a => !a.isEmpty)
    removed := pair.2.filter (fun x => !x.isEmpty) }

/-- Stable insertion of an element into a list already sorted by `key`,
placing it after all elements with a key less than or equal to its own. -/
def insertSortedBy {α : Type} (key : α → Int) (e : α) :
    List α → List α
  | [] => [e]
  | f :: t =>
    if key f ≤ key e then f :: insertSortedBy key e t else e :: f :: t

/-- Stable ascending sort by an integer key, modelling the stable sorts
`sort_values("Date")` and `events.sort(key=...)` of the source. -/
def stableSortBy {α : Type} (key : α → Int) (l : List α) : List α :=
  l.foldl (fun acc e => insertSortedBy key e acc) []

/-- Embeds `_extract_changes_table` (src/data/build_sp500_history.py lines
97-181) from the list of scraped tables: a candidate table needs a date-like
and a change-like column; each candidate keeps its rows with a parseable
date and empty results are dropped; zero candidates or zero surviving frames
is the fatal `RuntimeError("Failed to extract changes table")`; otherwise the
frames are concatenated and stably sorted by date. -/
def _extract_changes_table (tables : List ChangesTable) :
    Except String (List ChangesRow) :=
  let cand := tables.filter (fun t => t.hasDateCol && t.hasChangeCol)
  if cand.isEmpty then Except.error "Failed to extract changes table"
  else
    let frames := (cand.map (fun t =>
      t.rows.filter (fun r => r.date.isSome))).filter (fun f => !f.isEmpty)
    if frames.isEmpty then Except.error "Failed to extract changes table"
    else Except.ok (stableSortBy (fun r => r.date.getD 0) frames.flatten)

/-- The epoch 1990-01-01 of `build_membership_timeline` line 237, with dates
modelled as day numbers since 1970-01-01. -/
def epoch1990 : Int := 7305

/-- Embeds the event-building loop of `build_membership_timeline` (lines
228-238): parse each row, drop events with an unparseable date or with both
buckets empty, drop events before the 1990 epoch, and sort by date. The
result can be the empty list without any error being raised. -/
def eventsFromRows (rows : List ChangesRow) : List ChangeEvent :=
  let parsed := (rows.map _parse_added_removed).filter
    (fun e => e.date.isSome && (!e.added.isEmpty || !e.removed.isEmpty))
  let events : List ChangeEvent := parsed.map (fun e =>
    { date := e.date.getD 0, added := e.added, removed := e.removed })
  stableSortBy (fun e => e.date)
    (events.filter (fun e => decide (epoch1990 ≤ e.date)))

/-- Embeds `build_membership_timeline` (src/data/build_sp500_history.py
lines 216-272) down to the final day's membership set, taking the current
constituent set and the scraped tables as inputs: extraction failure
propagates as the fatal error; otherwise the parsed events — possibly zero
of them — drive the backward and forward replay without any further check. -/
def build_membership_timeline (tables : List ChangesTable)
    (currentSet : Finset String) (start endDate : Int) :
    Except String (Finset String) :=
  match _extract_changes_table tables with
  | Except.error msg => Except.error msg
  | Except.ok rows =>
    Except.ok (buildMembershipFinal currentSet (eventsFromRows rows) start endDate)

/-- A ticker is touched by an event when the event adds or removes it. -/
def touchedBy (x : String) (e : ChangeEvent) : Prop :=
  x ∈ e.added ∨ x ∈ e.removed

/-- A two-date, one-ticker price panel used as concrete input: ticker `A`
is priced `100` at date `0` and `50` at date `1`. -/
def samplePrices : PricePanel where
  dates := [0, 1]
  tickers := {"A"}
  cell := fun d t =>
    if t = "A" then
      (if d = 0 then some 100 else if d = 1 then some 50 else none)
    else none

/-- Concrete membership records: ticker `A` is an active member at date `0`
only. -/
def sampleMembership : List MemRow :=
  [{ date := 0, ticker := "A", in_index := 1 }]

/-- A concrete scraped table whose single row has a parseable date but no
Added, Removed or Reason text at all: it survives extraction yet parses to
zero change events. -/
def silentTable : ChangesTable where
  hasDateCol := true
  hasChangeCol := true
  rows := [{ date := some 8000, added := none, removed := none, reason := none }]

theorem normalize_weights_apply {n : ℕ} (W : Fin n → ℚ) :
    normalize_weights W =
      if (∑ j, |W j|) = 0 then (fun _ => 0) else fun j => W j / (∑ j, |W j|) :=
  rfl

theorem normalize_weights_spec {n : ℕ} (V : Fin n → ℚ) :
    ((∑ j, |normalize_weights V j|) = 0 ∨ (∑ j, |normalize_weights V j|) = 1)
    ∧ ((∑ j, |normalize_weights V j|) = 1 ↔ ∃ j, normalize_weights V j ≠ 0) := by
  by_cases h : (∑ j, |V j|) = 0
  · have hfun : normalize_weights V = fun _ => 0 := by
      rw [normalize_weights_apply, if_pos h]
    constructor
    · left
      simp [hfun]
    · constructor
      · intro h1
        rw [hfun] at h1
        simp at h1
      · rintro ⟨j, hj⟩
        exact absurd (by rw [hfun]) hj
  · have hpos : 0 < ∑ j, |V j| :=
      (Finset.sum_nonneg fun j _ => abs_nonneg _).lt_of_ne (Ne.symm h)
    have hfun : normalize_weights V = fun j => V j / (∑ i, |V i|) := by
      rw [normalize_weights_apply, if_neg h]
    have hsum : (∑ j, |normalize_weights V j|) = 1 := by
      rw [hfun]
      have hcong : ∀ j ∈ Finset.univ, |V j / (∑ i, |V i|)| = |V j| / (∑ i, |V i|) := by
        intro j _
        rw [abs_div, abs_of_pos hpos]
      rw [Finset.sum_congr rfl hcong, ← Finset.sum_div, div_self h]
    refine ⟨Or.inr hsum, ⟨fun _ => ?_, fun _ => hsum⟩⟩
    by_contra hall
    push_neg at hall
    apply h
    apply Finset.sum_eq_zero
    intro j _
    have hzero := hall j
    rw [hfun] at hzero
    simp only [div_eq_zero_iff] at hzero
    rcases hzero with h0 | h0
    · simp [h0]
    · exact absurd h0 h

/-- C1: for every longs/shorts indicator panel row, the weight row produced
by `equal_weight_long_short` has total absolute weight exactly `0` or exactly
`1`, and it is exactly `1` precisely when some name is traded (carries a
nonzero weight) that date, hence exactly `0` when no name is traded. -/
theorem c1_gross_exposure_zero_or_one {n : ℕ} (longs shorts : Fin n → ℚ) :
    ((∑ j, |equal_weight_long_short longs shorts j|) = 0 ∨
      (∑ j, |equal_weight_long_short longs shorts j|) = 1)
    ∧ ((∑ j, |equal_weight_long_short longs shorts j|) = 1 ↔
      ∃ j, equal_weight_long_short longs shorts j ≠ 0) :=
  normalize_weights_spec _

/-- C2: at every date of the backtest, the gross strategy return computed by
`(W * rets).sum(axis=1)` equals the sum over tickers of the pre-drift target
weight (the row of `equal_weight_long_short` over the gated signals) times
that ticker's realized return, a missing return contributing zero. -/
theorem c2_gross_is_weighted_return_sum {n : ℕ} (longs shorts : ℕ → Fin n → ℚ)
    (min_names : ℚ) (rets : ℕ → Fin n → Option ℚ) (t : ℕ) :
    strategy_gross
        (fun u => equal_weight_long_short
          ((gate_signals longs shorts min_names).1 u)
          ((gate_signals longs shorts min_names).2 u)) rets t
      = ∑ j, equal_weight_long_short
          ((gate_signals longs shorts min_names).1 t)
          ((gate_signals longs shorts min_names).2 t) j * ((rets t j).getD 0) := by
  unfold strategy_gross
  refine Finset.sum_congr rfl fun j _ => ?_
  cases h : rets t j with
  | none => simp [h]
  | some r => simp [h]

/-- C3: for every weight panel, return panel and date after the first, the
drifted weight entering that date is the previous target row compounded by
the previous realized returns and divided by the total absolute post-drift
weight (the zero-denominator branch of the source coincides with this
formula because a zero total absolute weight forces a zero post-drift row),
and the turnover at that date is half the total absolute difference between
the new target row and the drifted row. -/
theorem c3_drift_formula_and_turnover {n : ℕ} (W : ℕ → Fin n → ℚ)
    (rets : ℕ → Fin n → Option ℚ) (k : ℕ) :
    drift_weights (W k) (rets k)
        = (fun j => (W k j * (1 + ((rets k j).getD 0))) /
            (∑ i, |W k i * (1 + ((rets k i).getD 0))|))
    ∧ turnover_from_weights W rets (k + 1)
        = (1 / 2) * ∑ j, |W (k + 1) j - drift_weights (W k) (rets k) j| := by
  constructor
  · unfold drift_weights
    by_cases h : (∑ i, |W k i * (1 + ((rets k i).getD 0))|) = 0
    · rw [if_pos h]
      funext j
      have hj : W k j * (1 + ((rets k j).getD 0)) = 0 := by
        have hmem := (Finset.sum_eq_zero_iff_of_nonneg
          (fun i _ => abs_nonneg _)).1 h j (Finset.mem_univ j)
        exact abs_eq_zero.1 hmem
      simp [hj]
    · rw [if_neg h]
  · rfl

theorem sum_abs_drift_le_one {n : ℕ} (w : Fin n → ℚ) (r : Fin n → Option ℚ) :
    (∑ j, |drift_weights w r j|) ≤ 1 := by
  unfold drift_weights
  by_cases h : (∑ j, |w j * (1 + ((r j).getD 0))|) = 0
  · rw [if_pos h]
    rw [h]
    norm_num
  · rw [if_neg h]
    have hpos : 0 < ∑ j, |w j * (1 + ((r j).getD 0))| :=
      (Finset.sum_nonneg fun j _ => abs_nonneg _).lt_of_ne (Ne.symm h)
    have hcong : ∀ j ∈ Finset.univ,
        |w j * (1 + ((r j).getD 0)) / (∑ i, |w i * (1 + ((r i).getD 0))|)|
          = |w j * (1 + ((r j).getD 0))| / (∑ i, |w i * (1 + ((r i).getD 0))|) := by
      intro j _
      rw [abs_div, abs_of_pos hpos]
    rw [Finset.sum_congr rfl hcong, ← Finset.sum_div, div_self h]

/-- C4: for every weight panel whose rows have total absolute weight at most
`1` (as `equal_weight_long_short` produces) and every return panel, the
turnover series is bounded by `0 ≤ turnover ≤ 2` at every date and the first
date's turnover is exactly `0`. -/
theorem c4_turnover_bounded {n : ℕ} (W : ℕ → Fin n → ℚ)
    (rets : ℕ → Fin n → Option ℚ)
    (hW : ∀ i, (∑ j, |W i j|) ≤ 1) (t : ℕ) :
    (0 ≤ turnover_from_weights W rets t ∧ turnover_from_weights W rets t ≤ 2)
    ∧ turnover_from_weights W rets 0 = 0 := by
  refine ⟨?_, rfl⟩
  cases t with
  | zero =>
    constructor <;> norm_num [turnover_from_weights]
  | succ k =>
    have hred : turnover_from_weights W rets (k + 1)
        = (1 / 2) * ∑ j, |W (k + 1) j - drift_weights (W k) (rets k) j| := rfl
    constructor
    · rw [hred]
      have hs : 0 ≤ ∑ j, |W (k + 1) j - drift_weights (W k) (rets k) j| :=
        Finset.sum_nonneg fun j _ => abs_nonneg _
      linarith
    · rw [hred]
      have htri : ∑ j, |W (k + 1) j - drift_weights (W k) (rets k) j|
          ≤ (∑ j, |W (k + 1) j|) + ∑ j, |drift_weights (W k) (rets k) j| := by
        rw [← Finset.sum_add_distrib]
        refine Finset.sum_le_sum fun j _ => ?_
        calc |W (k + 1) j - drift_weights (W k) (rets k) j|
            = |W (k + 1) j + -(drift_weights (W k) (rets k) j)| := by
              rw [sub_eq_add_neg]
          _ ≤ |W (k + 1) j| + |-(drift_weights (W k) (rets k) j)| := abs_add _ _
          _ = |W (k + 1) j| + |drift_weights (W k) (rets k) j| := by rw [abs_neg]
      have h1 := hW (k + 1)
      have h2 := sum_abs_drift_le_one (W k) (rets k)
      linarith

/-- C4 witness: the bounds evaluated on the concrete all-flat one-ticker
panel. -/
theorem c4_turnover_bounded_witness :
    (0 ≤ turnover_from_weights (fun _ => fun _ : Fin 1 => (0 : ℚ))
        (fun _ => fun _ : Fin 1 => (none : Option ℚ)) 1
      ∧ turnover_from_weights (fun _ => fun _ : Fin 1 => (0 : ℚ))
          (fun _ => fun _ : Fin 1 => (none : Option ℚ)) 1 ≤ 2)
    ∧ turnover_from_weights (fun _ => fun _ : Fin 1 => (0 : ℚ))
        (fun _ => fun _ : Fin 1 => (none : Option ℚ)) 0 = 0 :=
  c4_turnover_bounded (fun _ => fun _ : Fin 1 => 0) (fun _ => fun _ => none)
    (fun i => by simp) 1

theorem equal_weight_long_short_zero {n : ℕ} :
    equal_weight_long_short (fun _ : Fin n => (0 : ℚ)) (fun _ => 0)
      = fun _ => 0 := by
  unfold equal_weight_long_short
  simp [normalize_weights_apply]

/-- C8: at every date where the long count or the short count falls below
`min_names`, the gate zeroes both indicator rows entirely, and the resulting
`equal_weight_long_short` weight row is all zero — the strategy stands flat
rather than aborting. -/
theorem c8_gate_zeroes_thin_dates {n : ℕ} (longs shorts : ℕ → Fin n → ℚ)
    (min_names : ℚ) (t : ℕ)
    (h : (∑ i, longs t i) < min_names ∨ (∑ i, shorts t i) < min_names) :
    (∀ j, (gate_signals longs shorts min_names).1 t j = 0)
    ∧ (∀ j, (gate_signals longs shorts min_names).2 t j = 0)
    ∧ ∀ j, equal_weight_long_short
        ((gate_signals longs shorts min_names).1 t)
        ((gate_signals longs shorts min_names).2 t) j = 0 := by
  have hcond : ¬(min_names ≤ (∑ i, longs t i) ∧ min_names ≤ (∑ i, shorts t i)) := by
    rcases h with h | h
    · exact fun hc => absurd hc.1 (not_le.2 h)
    · exact fun hc => absurd hc.2 (not_le.2 h)
  have h1 : (gate_signals longs shorts min_names).1 t = fun _ => 0 := by
    funext j
    unfold gate_signals
    exact if_neg hcond
  have h2 : (gate_signals longs shorts min_names).2 t = fun _ => 0 := by
    funext j
    unfold gate_signals
    exact if_neg hcond
  refine ⟨fun j => by rw [h1], fun j => by rw [h2], fun j => ?_⟩
  rw [h1, h2, equal_weight_long_short_zero]

/-- C8 witness: the gate evaluated on a concrete one-ticker panel with a
single long name against the default `min_names = 20`. -/
theorem c8_gate_zeroes_thin_dates_witness :
    (∀ j, (gate_signals (fun _ => fun _ : Fin 1 => (1 : ℚ))
        (fun _ => fun _ : Fin 1 => (1 : ℚ)) 20).1 0 j = 0)
    ∧ (∀ j, (gate_signals (fun _ => fun _ : Fin 1 => (1 : ℚ))
        (fun _ => fun _ : Fin 1 => (1 : ℚ)) 20).2 0 j = 0)
    ∧ ∀ j, equal_weight_long_short
        ((gate_signals (fun _ => fun _ : Fin 1 => (1 : ℚ))
          (fun _ => fun _ : Fin 1 => (1 : ℚ)) 20).1 0)
        ((gate_signals (fun _ => fun _ : Fin 1 => (1 : ℚ))
          (fun _ => fun _ : Fin 1 => (1 : ℚ)) 20).2 0) j = 0 :=
  c8_gate_zeroes_thin_dates (fun _ => fun _ : Fin 1 => 1)
    (fun _ => fun _ => 1) 20 0 (Or.inl (by norm_num [Fin.sum_univ_one]))

/-- C10: with a long threshold strictly above the short threshold,
`build_signals` never flags a cell as both long and short, and a missing rank
yields a zero indicator on both sides. -/
theorem c10_signals_disjoint_missing_flat {n : ℕ}
    (ranks : ℕ → Fin n → Option ℚ) (long_q short_q : ℚ)
    (h : short_q < long_q) (t : ℕ) (j : Fin n) :
    ¬(build_signals_longs ranks long_q t j = 1
        ∧ build_signals_shorts ranks short_q t j = 1)
    ∧ (ranks t j = none →
        build_signals_longs ranks long_q t j = 0
        ∧ build_signals_shorts ranks short_q t j = 0) := by
  constructor
  · rintro ⟨hl, hs⟩
    unfold build_signals_longs at hl
    unfold build_signals_shorts at hs
    cases hr : ranks t j with
    | none =>
      rw [hr] at hl
      simp at hl
    | some r =>
      rw [hr] at hl hs
      by_cases h1 : long_q ≤ r
      · by_cases h2 : r ≤ short_q
        · linarith
        · simp [h2] at hs
      · simp [h1] at hl
  · intro hr
    constructor
    · unfold build_signals_longs
      rw [hr]
    · unfold build_signals_shorts
      rw [hr]

/-- C10 witness: the disjointness and missing-rank facts evaluated at the
default thresholds `0.9 > 0.1` on a concrete all-missing rank panel. -/
theorem c10_signals_disjoint_missing_flat_witness :
    ¬(build_signals_longs (fun _ => fun _ : Fin 1 => (none : Option ℚ))
        (9 / 10) 0 0 = 1
      ∧ build_signals_shorts (fun _ => fun _ : Fin 1 => (none : Option ℚ))
        (1 / 10) 0 0 = 1)
    ∧ ((fun _ => fun _ : Fin 1 => (none : Option ℚ)) 0 0 = none →
      build_signals_longs (fun _ => fun _ : Fin 1 => (none : Option ℚ))
          (9 / 10) 0 0 = 0
        ∧ build_signals_shorts (fun _ => fun _ : Fin 1 => (none : Option ℚ))
          (1 / 10) 0 0 = 0) :=
  c10_signals_disjoint_missing_flat (fun _ => fun _ : Fin 1 => none)
    (9 / 10) (1 / 10) (by norm_num) 0 0

/-- C6: the source `prices_masked_by_membership` cannot satisfy the masking
contract because its line 30 raises `AttributeError` on every call — here
evaluated at a concrete panel where ticker `A` is priced at both dates but a
member only at date `0`. The intended masking (`prices_masked_spec`, the
code with the typo read as `intersection`) populates the cell with the raw
price exactly when membership holds and leaves it missing otherwise. -/
theorem prices_masked_spec_cell (P : PricePanel) (m : List MemRow) (d : Int)
    (t : String) :
    (prices_masked_spec P m).cell d t
      = if 1 / 2 < maskValue m d t then P.cell d t else none := rfl

theorem c6_masking_raises_attribute_error :
    prices_masked_by_membership samplePrices sampleMembership
        = Except.error "AttributeError: set object has no attribute intersections"
    ∧ (prices_masked_spec samplePrices sampleMembership).cell 0 "A" = some 100
    ∧ (prices_masked_spec samplePrices sampleMembership).cell 1 "A" = none := by
  refine ⟨rfl, ?_, ?_⟩ <;>
    · rw [prices_masked_spec_cell]
      norm_num [maskValue, sampleMembership, samplePrices]

/-- C7: the intended masking (`prices_masked_spec`, the source with the
line-30 typo read as `intersection`) is idempotent — re-masking an
already-masked panel by the same membership returns the identical panel —
while the shipped `prices_masked_by_membership` raises `AttributeError` even
on an already-masked panel, so it never returns any panel at all. -/
theorem c7_masking_idempotent_intent :
    (∀ (P : PricePanel) (m : List MemRow),
        prices_masked_spec (prices_masked_spec P m) m = prices_masked_spec P m)
    ∧ prices_masked_by_membership (prices_masked_spec samplePrices sampleMembership)
          sampleMembership
        = Except.error "AttributeError: set object has no attribute intersections" := by
  refine ⟨fun P m => ?_, rfl⟩
  refine PricePanel.ext rfl ?_ ?_
  · show (P.tickers ∩ memTickers m) ∩ memTickers m = P.tickers ∩ memTickers m
    rw [Finset.inter_assoc, Finset.inter_self]
  · funext d t
    by_cases h : 1 / 2 < maskValue m d t
    · simp only [prices_masked_spec_cell, if_pos h]
    · simp only [prices_masked_spec_cell, if_neg h]

theorem mem_foldl_erase (x : String) (l : List String) (S : Finset String) :
    x ∈ l.foldl (fun s r => s.erase r) S ↔ x ∈ S ∧ x ∉ l := by
  induction l generalizing S with
  | nil => simp
  | cons a t ih =>
    rw [List.foldl_cons, ih]
    simp only [Finset.mem_erase, List.mem_cons]
    tauto

theorem mem_foldl_insert (x : String) (l : List String) (S : Finset String) :
    x ∈ l.foldl (fun s a => insert a s) S ↔ x ∈ S ∨ x ∈ l := by
  induction l generalizing S with
  | nil => simp
  | cons a t ih =>
    rw [List.foldl_cons, ih]
    simp only [Finset.mem_insert, List.mem_cons]
    tauto

theorem mem_applyEvent (x : String) (S : Finset String) (e : ChangeEvent) :
    x ∈ applyEvent S e ↔ ((x ∈ S ∧ x ∉ e.removed) ∨ x ∈ e.added) := by
  unfold applyEvent
  rw [mem_foldl_insert, mem_foldl_erase]

theorem mem_undoEvent (x : String) (S : Finset String) (e : ChangeEvent) :
    x ∈ undoEvent S e ↔ ((x ∈ S ∧ x ∉ e.added) ∨ x ∈ e.removed) := by
  unfold undoEvent
  rw [mem_foldl_insert, mem_foldl_erase]

theorem applyEvent_mem_congr (x : String) (e : ChangeEvent)
    (S S' : Finset String) (h : x ∈ S ↔ x ∈ S') :
    (x ∈ applyEvent S e ↔ x ∈ applyEvent S' e) := by
  rw [mem_applyEvent, mem_applyEvent, h]

theorem applyEvent_mem_of_touched (x : String) (e : ChangeEvent)
    (hx : touchedBy x e) (S S' : Finset String) :
    (x ∈ applyEvent S e ↔ x ∈ applyEvent S' e) := by
  rcases hx with h | h
  · simp [mem_applyEvent, h]
  · by_cases ha : x ∈ e.added
    · simp [mem_applyEvent, ha]
    · simp [mem_applyEvent, ha, h]

theorem foldl_applyEvent_congr (x : String) (l : List ChangeEvent) :
    ∀ S S' : Finset String, (x ∈ S ↔ x ∈ S') →
      (x ∈ l.foldl applyEvent S ↔ x ∈ l.foldl applyEvent S') := by
  induction l with
  | nil => intro S S' h; simpa using h
  | cons e t ih =>
    intro S S' h
    rw [List.foldl_cons, List.foldl_cons]
    exact ih _ _ (applyEvent_mem_congr x e S S' h)

theorem foldl_applyEvent_touched_indep (x : String) (l : List ChangeEvent)
    (hx : ∃ e ∈ l, touchedBy x e) (S S' : Finset String) :
    (x ∈ l.foldl applyEvent S ↔ x ∈ l.foldl applyEvent S') := by
  induction l generalizing S S' with
  | nil => simp at hx
  | cons e t ih =>
    rw [List.foldl_cons, List.foldl_cons]
    by_cases ht : ∃ f ∈ t, touchedBy x f
    · exact ih ht _ _
    · have htouch : touchedBy x e := by
        rcases hx with ⟨f, hf, hfx⟩
        rcases List.mem_cons.1 hf with h1 | h1
        · rwa [h1] at hfx
        · exact absurd ⟨f, h1, hfx⟩ ht
      exact foldl_applyEvent_congr x t _ _
        (applyEvent_mem_of_touched x e htouch S S')

theorem foldl_applyEvent_untouched (x : String) (l : List ChangeEvent) :
    ∀ S : Finset String, (¬ ∃ e ∈ l, touchedBy x e) →
      (x ∈ l.foldl applyEvent S ↔ x ∈ S) := by
  induction l with
  | nil => intro S _; simp
  | cons e t ih =>
    intro S hx
    rw [List.foldl_cons]
    have he : ¬ touchedBy x e := fun h => hx ⟨e, List.mem_cons_self e t, h⟩
    have h1 : x ∉ e.added := fun h => he (Or.inl h)
    have h2 : x ∉ e.removed := fun h => he (Or.inr h)
    rw [ih _ (fun hexists => by
      rcases hexists with ⟨f, hf, hfx⟩
      exact hx ⟨f, List.mem_cons_of_mem e hf, hfx⟩)]
    rw [mem_applyEvent]
    simp [h1, h2]

theorem foldl_undoEvent_untouched (x : String) (l : List ChangeEvent) :
    ∀ S : Finset String, (¬ ∃ e ∈ l, touchedBy x e) →
      (x ∈ l.foldl undoEvent S ↔ x ∈ S) := by
  induction l with
  | nil => intro S _; simp
  | cons e t ih =>
    intro S hx
    rw [List.foldl_cons]
    have he : ¬ touchedBy x e := fun h => hx ⟨e, List.mem_cons_self e t, h⟩
    have h1 : x ∉ e.added := fun h => he (Or.inl h)
    have h2 : x ∉ e.removed := fun h => he (Or.inr h)
    rw [ih _ (fun hexists => by
      rcases hexists with ⟨f, hf, hfx⟩
      exact hx ⟨f, List.mem_cons_of_mem e hf, hfx⟩)]
    rw [mem_undoEvent]
    simp [h1, h2]

theorem filter_lt_append_filter_ge (l : List ChangeEvent) (start : Int)
    (hs : l.Pairwise (fun a b => a.date ≤ b.date)) :
    (l.filter fun e => decide (e.date < start))
      ++ (l.filter fun e => decide (start ≤ e.date)) = l := by
  induction l with
  | nil => rfl
  | cons e t ih =>
    rcases List.pairwise_cons.1 hs with ⟨hall, hst⟩
    by_cases hp : start ≤ e.date
    · rw [List.filter_cons_of_neg (by simpa using not_lt.2 hp),
          List.filter_cons_of_pos (by simpa using hp)]
      have hfilt1 : (t.filter fun f => decide (f.date < start)) = [] := by
        rw [List.filter_eq_nil_iff]
        intro b hb
        simp [not_lt.2 (le_trans hp (hall b hb))]
      have hfilt2 : (t.filter fun f => decide (start ≤ f.date)) = t := by
        rw [List.filter_eq_self]
        intro b hb
        simp [le_trans hp (hall b hb)]
      rw [hfilt1, hfilt2, List.nil_append]
    · rw [List.filter_cons_of_pos (by simpa using not_le.1 hp),
          List.filter_cons_of_neg (by simpa using hp)]
      rw [List.cons_append, ih hst]

/-- C5 (amended): for a chronologically ordered event list whose dates do
not exceed the end date, reconstructing membership backward to `start` and
replaying forward returns the current set exactly — provided that current
set is itself consistent with the event list, i.e. arises by replaying the
full event list forward from some initial set (as the true as-of-today index
membership does). For an arbitrary current set the round trip can differ,
see the counterexample. -/
theorem c5_membership_roundtrip (S : Finset String) (evs : List ChangeEvent)
    (start endDate : Int)
    (hsorted : evs.Pairwise (fun a b => a.date ≤ b.date))
    (hend : ∀ e ∈ evs, e.date ≤ endDate) :
    buildMembershipFinal (evs.foldl applyEvent S) evs start endDate
      = evs.foldl applyEvent S := by
  apply Finset.ext
  intro x
  unfold buildMembershipFinal rollForwardFinal rollBack
  have hff : (evs.filter fun e => decide (start ≤ e.date) && decide (e.date ≤ endDate))
      = evs.filter fun e => decide (start ≤ e.date) := by
    apply List.filter_congr
    intro a ha
    simp [hend a ha]
  rw [hff]
  by_cases htouch :
      ∃ e ∈ (evs.filter fun e => decide (start ≤ e.date)), touchedBy x e
  · have hsplit := filter_lt_append_filter_ge evs start hsorted
    have hrhs : evs.foldl applyEvent S
        = (evs.filter fun e => decide (start ≤ e.date)).foldl applyEvent
            ((evs.filter fun e => decide (e.date < start)).foldl applyEvent S) := by
      conv_lhs => rw [← hsplit]
      rw [List.foldl_append]
    rw [hrhs]
    exact foldl_applyEvent_touched_indep x _ htouch _ _
  · have hQun : ¬ ∃ e ∈ ((evs.filter fun e => decide (start < e.date)).reverse),
        touchedBy x e := by
      rintro ⟨e, he, hex⟩
      apply htouch
      rw [List.mem_reverse] at he
      rcases List.mem_filter.1 he with ⟨hmem, hdec⟩
      refine ⟨e, List.mem_filter.2 ⟨hmem, ?_⟩, hex⟩
      simp only [decide_eq_true_eq] at hdec ⊢
      omega
    rw [foldl_applyEvent_untouched x _ _ htouch,
        foldl_undoEvent_untouched x _ _ hQun]

/-- C5 witness: the round trip evaluated on a concrete consistent input —
current set obtained by applying the single ordered event (date `1`, add
`A`, remove `B`) to the initial set containing `B`, with range `[0, 2]`. -/
theorem c5_membership_roundtrip_witness :
    buildMembershipFinal
        ([({ date := 1, added := ["A"], removed := ["B"] } : ChangeEvent)].foldl
          applyEvent {"B"})
        [({ date := 1, added := ["A"], removed := ["B"] } : ChangeEvent)] 0 2
      = [({ date := 1, added := ["A"], removed := ["B"] } : ChangeEvent)].foldl
          applyEvent {"B"} :=
  c5_membership_roundtrip {"B"}
    [({ date := 1, added := ["A"], removed := ["B"] } : ChangeEvent)] 0 2
    (List.pairwise_singleton _ _) (by intro e he; simp at he; rw [he]; norm_num)

/-- C5 counterexample to the claim as stated: for the arbitrary (eventless,
inconsistent) current set `∅` and the chronologically ordered single-event
list adding `A` at date `1`, reconstructing backward to start `0` and
replaying forward to end `1` (the latest event date, i.e. "today") yields
`{A}`, not the original current set `∅`. -/
theorem c5_membership_roundtrip_counterexample :
    buildMembershipFinal (∅ : Finset String)
        [({ date := 1, added := ["A"], removed := [] } : ChangeEvent)] 0 1
      ≠ (∅ : Finset String) := by
  decide

/-- C9 (amended): the membership construction fails with the fatal reported
error exactly at extraction granularity — when the change-history yields no
candidate change table, or every candidate table has zero rows with a
parseable date. When rows survive extraction but zero change events are
parsed from them, the construction proceeds silently with an empty event
list (see the counterexample). -/
theorem c9_zero_rows_fatal (tables : List ChangesTable)
    (current : Finset String) (start endDate : Int)
    (h : (tables.filter fun t => t.hasDateCol && t.hasChangeCol).isEmpty = true
      ∨ (((tables.filter fun t => t.hasDateCol && t.hasChangeCol).map fun t =>
            t.rows.filter fun r => r.date.isSome).filter
          fun f => !f.isEmpty).isEmpty = true) :
    build_membership_timeline tables current start endDate
      = Except.error "Failed to extract changes table" := by
  unfold build_membership_timeline _extract_changes_table
  rcases h with h | h
  · simp [h]
  · by_cases hc :
        (tables.filter fun t => t.hasDateCol && t.hasChangeCol).isEmpty = true
    · simp [hc]
    · simp [h, hc]

/-- C9 witness: an empty table list yields zero candidate tables, and the
construction reports the fatal extraction error. -/
theorem c9_zero_rows_fatal_witness :
    build_membership_timeline [] ∅ 0 1
      = Except.error "Failed to extract changes table" :=
  c9_zero_rows_fatal [] ∅ 0 1 (Or.inl rfl)

/-- C9 counterexample to the claim as stated: a candidate table whose single
row has a parseable date but empty Added/Removed/Reason cells survives
extraction, parses to zero change events, and the membership construction
succeeds silently (returning the current set unchanged) instead of failing
with a fatal error. -/
theorem c9_silent_zero_events_counterexample :
    eventsFromRows
        [({ date := some 8000, added := none, removed := none,
            reason := none } : ChangesRow)] = []
    ∧ build_membership_timeline [silentTable] {"AAA"} 7500 8500
        = Except.ok ({"AAA"} : Finset String) := by
  constructor
  · rfl
  · rfl
